import Mathlib

/-!
Shallow embedding of the `mapval` validation package:
`libbeat/common/mapval/results.go` (the `Results` accumulator) and the
predicate-combinator file (`KeyPresent`, `KeyMissing`, `IsAny`,
`IsStringContaining`, `IsDuration`, `IsEqual`, `IsEqualToValue`, `IsNil`,
`IsIntGt`).

Go `interface{}` values are embedded as the inductive `GoValue`, covering the
scalar kinds the predicates in this package inspect (nil, bool, int, float64,
string, time.Duration).  Floats appear in this development only at integral
magnitudes, so `vfloat` carries an `Int` (its exact float64 value); this keeps
equality and Go's `%v` rendering exact on every value we model.

`Results.Fields` is a Go `map[string][]ValueResult`.  Go's map iteration order
is unspecified; we model the map as an insertion-ordered association list,
which is one determinization of it.  Every property proved below about
iteration is order-independent (counts, permutations, all/any), matching the
spec's stance that iteration order is an accepted non-determinism.

The `IsDef` structure, the `Is` constructor, its `check(v, keyExists)` method,
`ValueResult` and `ValidVR` are declared in a file of this repository that is
not part of the excerpt; the combinator file uses them (`def.check(v, true)`,
`ValueResult{false, msg}`, `.Valid`, `ValidVR`).  Their shapes are taken from
those uses, and the `check` dispatch is modelled from the spec (see its doc
comment).
-/

namespace Mapval

/-- Embedded Go `interface{}` values: the scalar kinds inspected by this
package's predicates.  Distinct constructors stand for distinct Go dynamic
types, so constructor inequality is exactly Go type inequality. -/
inductive GoValue where
  | vnil : GoValue
  | vbool : Bool → GoValue
  | vint : Int → GoValue
  | vfloat : Int → GoValue
  | vstring : String → GoValue
  | vduration : Int → GoValue
deriving DecidableEq

/-- Go's rendering of an `int`/`int64` value, as produced by `fmt` verbs. -/
def goIntString (n : Int) : String := toString n

/-- Go `fmt` `%v` rendering of an embedded value.  `float64` values at
integral magnitude print their integer digits; a `time.Duration` prints via
`Duration.String`, modelled here for sub-microsecond durations (no claim
below depends on the duration rendering). -/
def goFormatV : GoValue → String
  | GoValue.vnil => "<nil>"
  | GoValue.vbool b => if b then "true" else "false"
  | GoValue.vint n => goIntString n
  | GoValue.vfloat n => goIntString n
  | GoValue.vstring s => s
  | GoValue.vduration n => goIntString n ++ "ns"

/-- Go `fmt` `%#v` rendering of an embedded value (strings are quoted; the
names used in this package need no escaping). -/
def goFormatSharpV : GoValue → String
  | GoValue.vnil => "<nil>"
  | GoValue.vbool b => if b then "true" else "false"
  | GoValue.vint n => goIntString n
  | GoValue.vfloat n => goIntString n
  | GoValue.vstring s => "\"" ++ s ++ "\""
  | GoValue.vduration n => goIntString n

/-- Go `fmt` `%#v` rendering of a `[]string` slice. -/
def goFormatSharpStringSlice (names : List String) : String :=
  "[]string\x7b" ++ String.intercalate ", " (names.map (fun s => "\"" ++ s ++ "\"")) ++ "\x7d"

/-- Whether `needle` is a prefix of `hay` (on character lists). -/
def charsStartWith : List Char → List Char → Bool
  | _, [] => true
  | [], _ :: _ => false
  | c :: cs, d :: ds => c == d && charsStartWith cs ds

/-- Whether `needle` occurs contiguously inside `hay` (on character lists). -/
def charsContain : List Char → List Char → Bool
  | [], needle => needle.isEmpty
  | c :: cs, needle => charsStartWith (c :: cs) needle || charsContain cs needle

/-- Go `strings.Contains(hay, needle)`. -/
def strContains (hay needle : String) : Bool :=
  charsContain hay.data needle.data

/-- The result of checking one value against one predicate
(`ValueResult{Valid, Message}` in the source). -/
structure ValueResult where
  Valid : Bool
  Message : String
deriving DecidableEq

/-- ValidVR is the shared valid result constant (`ValidVR` in the source). -/
def ValidVR : ValueResult := ValueResult.mk true ""

/-- A value-checking function (`type ValueValidator func(v interface{}) ValueResult`). -/
def ValueValidator : Type := GoValue → ValueResult

/-- A named check definition.  `name` is diagnostic only; `checkKeyMissing`
marks predicates that assert a key's absence; `checker` is the checking
function (`none` models a nil `ValueValidator`, as in `KeyPresent` and
`KeyMissing`). -/
structure IsDef where
  name : String
  checkKeyMissing : Bool
  checker : Option ValueValidator

/-- Is wraps a named checking function into an `IsDef` (`Is(name, checkFn)`). -/
def Is (name : String) (checker : ValueValidator) : IsDef :=
  IsDef.mk name false (some checker)

/-- Modelled from the spec: the `IsDef.check(v, keyExists)` method is declared
in a repository file not included in the excerpt (the combinator file calls
`def.check(v, true)`).  Per the spec: a `checkKeyMissing` predicate is an
existence check only — it matches exactly when the key is absent and never
reads the value; every other predicate fails on an absent key
(`KeyPresent` "must not match when the key is absent") and otherwise runs its
checking function, a nil checker accepting any present value, `nil`
included. -/
def IsDef.check (d : IsDef) (v : GoValue) (keyExists : Bool) : ValueResult :=
  if d.checkKeyMissing then
    if keyExists then ValueResult.mk false "this key should not be present" else ValidVR
  else if keyExists then
    match d.checker with
    | some f => f v
    | none => ValidVR
  else ValueResult.mk false "expected this key to be present"

/-- KeyPresent checks that the given key is in the map, even if it has a nil
value (`KeyPresent = IsDef{name: "check key present"}`). -/
def KeyPresent : IsDef := IsDef.mk "check key present" false none

/-- KeyMissing checks that the given key is not present
(`KeyMissing = IsDef{name: "check key not present", checkKeyMissing: true}`). -/
def KeyMissing : IsDef := IsDef.mk "check key not present" true none

/-- The loop body of `IsAny`'s checker: try each candidate in order against
the same value and return the first valid result, if any. -/
def firstValid : List IsDef → GoValue → Option ValueResult
  | [], _ => none
  | d :: rest, v =>
    let vr := d.check v true
    if vr.Valid then some vr else firstValid rest v

/-- IsAny combines definitions with a logical OR: the value is valid when any
single candidate matches; otherwise a single failure lists every candidate's
name (`fmt.Sprintf("either %#v", names)` is the combined name and the failure
message is `"Value was none of %#v, actual value was %#v"`). -/
def IsAny (of : List IsDef) : IsDef :=
  let names := of.map IsDef.name
  Is ("either " ++ goFormatSharpStringSlice names) (fun v =>
    (firstValid of v).getD
      (ValueResult.mk false
        ("Value was none of " ++ goFormatSharpStringSlice names ++
          ", actual value was " ++ goFormatSharpV v)))

/-- The Go type assertion `v.(string)`. -/
def goAsString : GoValue → Option String
  | GoValue.vstring s => some s
  | _ => none

/-- IsStringContaining validates that the actual value contains the specified
substring (type-assertion failure and missing-substring failure messages as in
the source). -/
def IsStringContaining (needle : String) : IsDef :=
  Is "is string containing" (fun v =>
    match goAsString v with
    | none => ValueResult.mk false ("Unable to convert '" ++ goFormatV v ++ "' to string")
    | some strV =>
      if !strContains strV needle then
        ValueResult.mk false
          ("String '" ++ strV ++ "' did not contain substring '" ++ needle ++ "'")
      else ValidVR)

/-- The Go type name of an embedded value, as rendered by `fmt`'s `%T`. -/
def goTypeName : GoValue → String
  | GoValue.vnil => "<nil>"
  | GoValue.vbool _ => "bool"
  | GoValue.vint _ => "int"
  | GoValue.vfloat _ => "float64"
  | GoValue.vstring _ => "string"
  | GoValue.vduration _ => "time.Duration"

/-- IsDuration tests that the given value is a duration. -/
def IsDuration : IsDef :=
  Is "is a duration" (fun v =>
    match v with
    | GoValue.vduration _ => ValidVR
    | _ => ValueResult.mk false
        ("Expected a time.duration, got '" ++ goFormatV v ++ "' which is a " ++ goTypeName v))

/-- Models `assert.ObjectsAreEqual` (testify) over the embedded value
universe: `reflect.DeepEqual`, which honours dynamic type identity, is exactly
structural equality of `GoValue` (distinct constructors are distinct Go
types). -/
def ObjectsAreEqual (a b : GoValue) : Bool :=
  decide (a = b)

/-- The numeric magnitude of a value when its Go type is convertible to the
other numeric types (`int`, `float64`, `time.Duration`); conversion between
these types is exact at the integral magnitudes modelled here. -/
def goNumericValue : GoValue → Option Int
  | GoValue.vint n => some n
  | GoValue.vfloat n => some n
  | GoValue.vduration n => some n
  | _ => none

/-- Models `assert.ObjectsAreEqualValues` (testify) over the embedded value
universe: equal objects are equal values, and otherwise the expected value is
converted to the actual value's type and compared, which on the numeric kinds
modelled here succeeds exactly when the magnitudes agree. -/
def ObjectsAreEqualValues (a b : GoValue) : Bool :=
  ObjectsAreEqual a b ||
    match goNumericValue a, goNumericValue b with
    | some x, some y => decide (x = y)
    | _, _ => false

/-- IsEqual tests that the given object is equal to the actual object. -/
def IsEqual (expected : GoValue) : IsDef :=
  Is "equals" (fun v =>
    if ObjectsAreEqual v expected then ValidVR
    else ValueResult.mk false
      ("objects not equal: actual(" ++ goFormatV v ++ ") != expected(" ++ goFormatV expected ++ ")"))

/-- IsEqualToValue tests that the given value is equal to the actual value. -/
def IsEqualToValue (expected : GoValue) : IsDef :=
  Is "equals" (fun v =>
    if ObjectsAreEqualValues v expected then ValidVR
    else ValueResult.mk false
      ("values not equal: actual(" ++ goFormatV v ++ ") != expected(" ++ goFormatV expected ++ ")"))

/-- IsNil tests that a value is nil. -/
def IsNil : IsDef :=
  Is "is nil" (fun v =>
    match v with
    | GoValue.vnil => ValidVR
    | _ => ValueResult.mk false ("Value " ++ goFormatV v ++ " is not nil"))

/-- The checking function behind `IsIntGt`. -/
def intGtChecker (than : Int) : ValueValidator := fun v =>
  match v with
  | GoValue.vint n =>
    if n > than then ValidVR
    else ValueResult.mk false (goIntString n ++ " is not greater than " ++ goIntString than)
  | _ => ValueResult.mk false
      (goFormatV v ++ " is a " ++ goTypeName v ++ ", but was expecting an int!")

/-- IsIntGt tests that a value is an int greater than the given bound. -/
def IsIntGt (than : Int) : IsDef :=
  Is "greater than" (intGtChecker than)

/-- Results of executing a schema: a flattened map from dotted paths to the
`ValueResult`s recorded there, plus the aggregate `Valid` flag
(`Results` in `results.go`; the Go map is modelled as an insertion-ordered
association list). -/
structure Results where
  Fields : List (String × List ValueResult)
  Valid : Bool

/-- NewResults creates a new `Results` object: no fields, `Valid: true`. -/
def NewResults : Results :=
  Results.mk [] true

/-- The map update inside `record`: append to the path's slice when the key is
already present (`r.Fields[path] != nil`), otherwise create a one-element
slice for it. -/
def recordFields : List (String × List ValueResult) → String → ValueResult →
    List (String × List ValueResult)
  | [], path, result => [(path, [result])]
  | (q, l) :: rest, path, result =>
    if q = path then (q, l ++ [result]) :: rest
    else (q, l) :: recordFields rest path result

/-- The `record` mutator of `results.go`: append the result under its path and
clear `Valid` when the result is invalid. -/
def Results.record (r : Results) (path : String) (result : ValueResult) : Results :=
  Results.mk (recordFields r.Fields path result)
    (if !result.Valid then false else r.Valid)

/-- The sequence of `(path, result)` pairs the two nested loops of
`EachResult` run through, in field order. -/
def flattenFields : List (String × List ValueResult) → List (String × ValueResult)
  | [] => []
  | (p, l) :: rest => l.map (fun vr => (p, vr)) ++ flattenFields rest

/-- The calls `EachResult(f)` makes: each visited pair is passed to the
callback, and a `false` return stops the whole iteration at once (the Go
`return` leaves both loops). -/
def eachResultCalls : List (String × ValueResult) → (String → ValueResult → Bool) →
    List (String × ValueResult)
  | [], _ => []
  | pv :: rest, f => pv :: (if f pv.1 pv.2 then eachResultCalls rest f else [])

/-- The visit sequence of `Results.EachResult` on this `Results` value. -/
def Results.EachResultCalls (r : Results) (f : String → ValueResult → Bool) :
    List (String × ValueResult) :=
  eachResultCalls (flattenFields r.Fields) f

/-- DetailedErrors returns a new `Results` object consisting only of error
data: it iterates every result (the callback always returns `true`, so there
is no early stop) and records the invalid ones, path preserved, into a fresh
`NewResults`. -/
def Results.DetailedErrors (r : Results) : Results :=
  (flattenFields r.Fields).foldl
    (fun errors pv => if !pv.2.Valid then errors.record pv.1 pv.2 else errors)
    NewResults

/-- ValueResultError represents an error validating an individual value. -/
structure ValueResultError where
  path : String
  valueResult : ValueResult
deriving DecidableEq

/-- The `Error()` rendering: `fmt.Sprintf("@path '%s': %s", path, message)`. -/
def ValueResultError.Error (vre : ValueResultError) : String :=
  "@path '" ++ vre.path ++ "': " ++ vre.valueResult.Message

/-- Errors returns a list of error objects, one per failed value validation:
it iterates every result (no early stop) and appends a `ValueResultError` for
each invalid one. -/
def Results.Errors (r : Results) : List ValueResultError :=
  (flattenFields r.Fields).foldl
    (fun errors pv =>
      if !pv.2.Valid then errors ++ [ValueResultError.mk pv.1 pv.2] else errors)
    []

/-- The `Results` value built from `NewResults()` by the given sequence of
`record(path, result)` calls, in order: exactly the states the spec calls
reachable. -/
def applyRecords (ops : List (String × ValueResult)) : Results :=
  ops.foldl (fun r pv => r.record pv.1 pv.2) NewResults

/-- Aggregate validity recomputed from scratch: the conjunction of `Valid`
over every record at every path of `Fields`. -/
def allRecordsValid (r : Results) : Bool :=
  (flattenFields r.Fields).all (fun pv => pv.2.Valid)

theorem record_valid_eq (r : Results) (path : String) (result : ValueResult) :
    (Results.record r path result).Valid = (r.Valid && result.Valid) := by
  cases h : result.Valid <;> simp [Results.record, h]

theorem record_fields_eq (r : Results) (path : String) (result : ValueResult) :
    (Results.record r path result).Fields = recordFields r.Fields path result := rfl

theorem perm_all_eq {α : Type} {l₁ l₂ : List α} (h : l₁.Perm l₂) (f : α → Bool) :
    l₁.all f = l₂.all f := by
  rw [Bool.eq_iff_iff, List.all_eq_true, List.all_eq_true]
  exact ⟨fun H x hx => H x (h.mem_iff.mpr hx), fun H x hx => H x (h.mem_iff.mp hx)⟩

theorem flatten_recordFields_perm (fields : List (String × List ValueResult))
    (path : String) (result : ValueResult) :
    (flattenFields (recordFields fields path result)).Perm
      ((path, result) :: flattenFields fields) := by
  induction fields with
  | nil => simp [recordFields, flattenFields]
  | cons hd rest ih =>
    obtain ⟨q, l⟩ := hd
    by_cases hq : q = path
    · subst hq
      simp only [recordFields, if_pos rfl, flattenFields, List.map_append, List.map_cons,
        List.map_nil, List.append_assoc, List.cons_append, List.nil_append]
      exact List.perm_middle
    · simp only [recordFields, if_neg hq, flattenFields]
      exact ((ih.append_left _).trans List.perm_middle)

theorem foldl_record_valid (ops : List (String × ValueResult)) :
    ∀ r : Results,
      (ops.foldl (fun r pv => r.record pv.1 pv.2) r).Valid
        = (r.Valid && ops.all (fun pv => pv.2.Valid)) := by
  induction ops with
  | nil => intro r; simp
  | cons pv rest ih =>
    intro r
    simp only [List.foldl_cons, List.all_cons, ih, record_valid_eq, Bool.and_assoc]

theorem foldl_record_flatten_perm (ops : List (String × ValueResult)) :
    ∀ r : Results,
      (flattenFields ((ops.foldl (fun r pv => r.record pv.1 pv.2) r).Fields)).Perm
        (flattenFields r.Fields ++ ops) := by
  induction ops with
  | nil => intro r; simp
  | cons pv rest ih =>
    intro r
    obtain ⟨p, vr⟩ := pv
    refine ((ih (r.record p vr)).trans ?h)
    refine (((flatten_recordFields_perm r.Fields p vr).append_right rest).trans ?h2)
    exact List.perm_middle.symm

theorem applyRecords_valid_eq_all (ops : List (String × ValueResult)) :
    (applyRecords ops).Valid = ops.all (fun pv => pv.2.Valid) := by
  rw [applyRecords, foldl_record_valid]
  rfl

theorem applyRecords_flatten_perm (ops : List (String × ValueResult)) :
    (flattenFields (applyRecords ops).Fields).Perm ops :=
  foldl_record_flatten_perm ops NewResults

theorem applyRecords_valid_eq_allRecordsValid (ops : List (String × ValueResult)) :
    (applyRecords ops).Valid = allRecordsValid (applyRecords ops) := by
  rw [applyRecords_valid_eq_all, allRecordsValid,
    perm_all_eq (applyRecords_flatten_perm ops)]

theorem detailedErrors_foldl_perm (l : List (String × ValueResult)) :
    ∀ acc : Results,
      (flattenFields ((l.foldl
          (fun errors pv => if !pv.2.Valid then errors.record pv.1 pv.2 else errors)
          acc).Fields)).Perm
        (flattenFields acc.Fields ++ l.filter (fun pv => !pv.2.Valid)) := by
  induction l with
  | nil => intro acc; simp
  | cons pv rest ih =>
    intro acc
    obtain ⟨p, vr⟩ := pv
    cases h : vr.Valid with
    | true =>
      simp only [List.foldl_cons, List.filter_cons, h, Bool.not_true, if_neg, ite_false,
        Bool.false_eq_true, not_false_eq_true]
      exact ih acc
    | false =>
      simp only [List.foldl_cons, List.filter_cons, h, Bool.not_false, if_pos, ite_true]
      refine ((ih (acc.record p vr)).trans ?h2)
      refine (((flatten_recordFields_perm acc.Fields p vr).append_right _).trans ?h3)
      exact List.perm_middle.symm

theorem detailedErrors_flatten_perm (r : Results) :
    (flattenFields (Results.DetailedErrors r).Fields).Perm
      ((flattenFields r.Fields).filter (fun pv => !pv.2.Valid)) := by
  have h := detailedErrors_foldl_perm (flattenFields r.Fields) NewResults
  simpa [Results.DetailedErrors, NewResults, flattenFields] using h

theorem errors_foldl_eq (l : List (String × ValueResult)) :
    ∀ acc : List ValueResultError,
      (l.foldl
          (fun errors pv =>
            if !pv.2.Valid then errors ++ [ValueResultError.mk pv.1 pv.2] else errors)
          acc)
        = acc ++ (l.filter (fun pv => !pv.2.Valid)).map
            (fun pv => ValueResultError.mk pv.1 pv.2) := by
  induction l with
  | nil => intro acc; simp
  | cons pv rest ih =>
    intro acc
    rw [List.foldl_cons, ih, List.filter_cons]
    cases h : pv.2.Valid with
    | true => simp [h]
    | false => simp [h]

theorem eachResultCalls_eq_takeWhile (f : String → ValueResult → Bool)
    (l : List (String × ValueResult)) :
    eachResultCalls l f
      = l.takeWhile (fun pv => f pv.1 pv.2)
        ++ (l.dropWhile (fun pv => f pv.1 pv.2)).take 1 := by
  induction l with
  | nil => rfl
  | cons pv rest ih =>
    cases h : f pv.1 pv.2 with
    | true => simp [eachResultCalls, List.takeWhile_cons, List.dropWhile_cons, h, ih]
    | false => simp [eachResultCalls, List.takeWhile_cons, List.dropWhile_cons, h]

theorem eachResultCalls_of_all_true (f : String → ValueResult → Bool)
    (hf : ∀ p vr, f p vr = true) (l : List (String × ValueResult)) :
    eachResultCalls l f = l := by
  induction l with
  | nil => rfl
  | cons pv rest ih => simp [eachResultCalls, hf pv.1 pv.2, ih]

theorem firstValid_eq_head_filter (ps : List IsDef) (v : GoValue) :
    firstValid ps v
      = ((ps.map (fun d => d.check v true)).filter (fun r => r.Valid)).head? := by
  induction ps with
  | nil => rfl
  | cons d rest ih =>
    cases h : (d.check v true).Valid with
    | true => simp [firstValid, List.filter_cons, h]
    | false => simp [firstValid, List.filter_cons, h, ih]

theorem firstValid_isSome_eq_any (ps : List IsDef) (v : GoValue) :
    (firstValid ps v).isSome = ps.any (fun d => (d.check v true).Valid) := by
  induction ps with
  | nil => rfl
  | cons d rest ih =>
    cases h : (d.check v true).Valid with
    | true => simp [firstValid, h]
    | false => simp [firstValid, h, ih]

theorem firstValid_valid_of_some (ps : List IsDef) (v : GoValue) (vr : ValueResult)
    (h : firstValid ps v = some vr) : vr.Valid = true := by
  induction ps with
  | nil => simp [firstValid] at h
  | cons d rest ih =>
    cases hd : (d.check v true).Valid with
    | true =>
      simp only [firstValid, hd, if_pos, Option.some.injEq, ite_true] at h
      rw [← h]; exact hd
    | false =>
      simp only [firstValid, hd, Bool.false_eq_true, if_neg, ite_false, not_false_eq_true] at h
      exact ih h

theorem firstValid_append_of_any (ps : List IsDef) (v : GoValue) (ps' : List IsDef)
    (h : ps.any (fun d => (d.check v true).Valid) = true) :
    firstValid (ps ++ ps') v = firstValid ps v := by
  induction ps with
  | nil => simp at h
  | cons d rest ih =>
    cases hd : (d.check v true).Valid with
    | true => simp [firstValid, hd]
    | false =>
      simp only [List.any_cons, hd, Bool.false_or] at h
      simp [firstValid, hd, ih h]

/-- C1: every `Results` value reachable from `NewResults()` by a sequence of
`record(path, result)` calls has `Valid` equal to the logical AND of the
`Valid` field of every recorded `ValueResult` (both as the AND over the call
sequence and as the AND over every record at every path of `Fields`), and one
`record` call conjoins the incoming result's validity onto the flag, so
`record` only ever narrows `Valid` from `true` to `false` and never back. -/
theorem c1_valid_is_and_of_records :
    (∀ ops : List (String × ValueResult),
        (applyRecords ops).Valid = ops.all (fun pv => pv.2.Valid))
  ∧ (∀ ops : List (String × ValueResult),
        (applyRecords ops).Valid = allRecordsValid (applyRecords ops))
  ∧ (∀ (r : Results) (path : String) (result : ValueResult),
        (Results.record r path result).Valid = (r.Valid && result.Valid)) :=
  ⟨applyRecords_valid_eq_all, applyRecords_valid_eq_allRecordsValid, record_valid_eq⟩

/-- C2: `IsAny(p1,...,pn).check(x)` is valid iff some candidate's check of `x`
is valid; the returned record is the first valid candidate record in order
when one exists, and otherwise the single failure record whose message lists
every candidate's name and the actual value; and once some candidate in a
list is valid, appending further candidates does not change which record the
candidate loop returns (short-circuit). -/
theorem c2_isAny_logical_or (ps : List IsDef) (v : GoValue) :
    (((IsAny ps).check v true).Valid = ps.any (fun d => (d.check v true).Valid))
  ∧ ((IsAny ps).check v true
      = (((ps.map (fun d => d.check v true)).filter (fun r => r.Valid)).head?).getD
          (ValueResult.mk false
            ("Value was none of " ++ goFormatSharpStringSlice (ps.map IsDef.name) ++
              ", actual value was " ++ goFormatSharpV v)))
  ∧ (∀ ps' : List IsDef, ps.any (fun d => (d.check v true).Valid) = true →
      firstValid (ps ++ ps') v = firstValid ps v) := by
  have hcheck : (IsAny ps).check v true
      = (firstValid ps v).getD
          (ValueResult.mk false
            ("Value was none of " ++ goFormatSharpStringSlice (ps.map IsDef.name) ++
              ", actual value was " ++ goFormatSharpV v)) := rfl
  refine ⟨?hvalid, ?hfirst, fun ps' h => firstValid_append_of_any ps v ps' h⟩
  case hvalid =>
    rw [hcheck, ← firstValid_isSome_eq_any]
    cases hfv : firstValid ps v with
    | none => simp
    | some vr => simp [firstValid_valid_of_some ps v vr hfv]
  case hfirst =>
    rw [hcheck, firstValid_eq_head_filter]

/-- C2 witness: a concrete instance of the short-circuit clause, with one
valid candidate already in the list. -/
theorem c2_isAny_logical_or_witness :
    firstValid ([KeyPresent] ++ [KeyMissing]) GoValue.vnil
      = firstValid [KeyPresent] GoValue.vnil :=
  (c2_isAny_logical_or [KeyPresent] GoValue.vnil).2.2 [KeyMissing] (by decide)

/-- C3: `IsEqual(v).check(v)` is valid for every value, and for every `w`
that differs from `v` (in dynamic type or in representation) the check is the
invalid record whose message contains the stringified actual and expected
values. -/
theorem c3_isEqual_strict (v w : GoValue) :
    ((IsEqual v).check v true = ValidVR)
  ∧ (w ≠ v → (IsEqual v).check w true
      = ValueResult.mk false
          ("objects not equal: actual(" ++ goFormatV w ++ ") != expected(" ++ goFormatV v ++ ")")) := by
  constructor
  · simp [IsEqual, Is, IsDef.check, ObjectsAreEqual]
  · intro h
    simp [IsEqual, Is, IsDef.check, ObjectsAreEqual, h]

/-- C3 witness: type identity is honoured — the `int` 1 and the `float64` 1
have equal magnitude but distinct types, so strict equality rejects them. -/
theorem c3_isEqual_strict_witness :
    (IsEqual (GoValue.vint 1)).check (GoValue.vfloat 1) true
      = ValueResult.mk false "objects not equal: actual(1) != expected(1)" :=
  (c3_isEqual_strict (GoValue.vint 1) (GoValue.vfloat 1)).2 (by decide)

/-- C4: `IsEqualToValue` is looser than `IsEqual`: whenever the strict check
accepts, the by-value check accepts; and on the pair int 3 / float64 3,
differing only in numeric representation type, the by-value check accepts
while the strict check rejects. -/
theorem c4_isEqualToValue_looser :
    (∀ e v : GoValue, ((IsEqual e).check v true).Valid = true →
        ((IsEqualToValue e).check v true).Valid = true)
  ∧ (((IsEqualToValue (GoValue.vint 3)).check (GoValue.vfloat 3) true).Valid = true)
  ∧ (((IsEqual (GoValue.vint 3)).check (GoValue.vfloat 3) true).Valid = false) := by
  refine ⟨?hlooser, by decide, by decide⟩
  intro e v h
  cases hov : ObjectsAreEqual v e with
  | true => simp [IsEqualToValue, Is, IsDef.check, ObjectsAreEqualValues, hov, ValidVR]
  | false => simp [IsEqual, Is, IsDef.check, hov, ValidVR] at h

/-- C4 witness: the looseness clause at a concrete accepted pair. -/
theorem c4_isEqualToValue_looser_witness :
    ((IsEqualToValue (GoValue.vstring "a")).check (GoValue.vstring "a") true).Valid = true :=
  c4_isEqualToValue_looser.1 (GoValue.vstring "a") (GoValue.vstring "a") (by decide)

/-- C5: `IsStringContaining(needle)` rejects a non-string actual value with
the type-mismatch message, rejects a string not containing `needle` with the
did-not-contain-substring message, and accepts a string containing
`needle`. -/
theorem c5_isStringContaining (needle : String) :
    (∀ v : GoValue, goAsString v = none →
        (IsStringContaining needle).check v true
          = ValueResult.mk false ("Unable to convert '" ++ goFormatV v ++ "' to string"))
  ∧ (∀ s : String, strContains s needle = false →
        (IsStringContaining needle).check (GoValue.vstring s) true
          = ValueResult.mk false
              ("String '" ++ s ++ "' did not contain substring '" ++ needle ++ "'"))
  ∧ (∀ s : String, strContains s needle = true →
        (IsStringContaining needle).check (GoValue.vstring s) true = ValidVR) := by
  refine ⟨?hmismatch, ?hmissing, ?hyes⟩
  case hmismatch =>
    intro v h
    simp [IsStringContaining, Is, IsDef.check, h]
  case hmissing =>
    intro s h
    simp [IsStringContaining, Is, IsDef.check, goAsString, h]
  case hyes =>
    intro s h
    simp [IsStringContaining, Is, IsDef.check, goAsString, h]

/-- C5 witness: needle "foo" against the int 42 (type mismatch), against
"foobar" (valid) and against "bar" (missing substring), as in the spec's
end-to-end scenario. -/
theorem c5_isStringContaining_witness :
    ((IsStringContaining "foo").check (GoValue.vint 42) true
        = ValueResult.mk false "Unable to convert '42' to string")
  ∧ ((IsStringContaining "foo").check (GoValue.vstring "foobar") true = ValidVR)
  ∧ ((IsStringContaining "foo").check (GoValue.vstring "bar") true
        = ValueResult.mk false "String 'bar' did not contain substring 'foo'") :=
  ⟨(c5_isStringContaining "foo").1 (GoValue.vint 42) rfl,
   (c5_isStringContaining "foo").2.2 "foobar" (by decide),
   (c5_isStringContaining "foo").2.1 "bar" (by decide)⟩

/-- C6: `KeyMissing.check` matches exactly when the key is absent and is a
pure existence check — its outcome is independent of any materialized value —
while `KeyPresent.check` matches exactly when the key exists, including a
present key whose value is nil, and rejects an absent key. -/
theorem c6_key_presence :
    (∀ (v : GoValue) (keyExists : Bool), (KeyMissing.check v keyExists).Valid = !keyExists)
  ∧ (∀ (v w : GoValue) (keyExists : Bool), KeyMissing.check v keyExists = KeyMissing.check w keyExists)
  ∧ (∀ (v : GoValue) (keyExists : Bool), (KeyPresent.check v keyExists).Valid = keyExists)
  ∧ (KeyPresent.check GoValue.vnil true = ValidVR
      ∧ (KeyPresent.check GoValue.vnil false).Valid = false) := by
  refine ⟨?hmiss, ?hindep, ?hpres, by decide, by decide⟩
  case hmiss =>
    intro v keyExists
    cases keyExists <;> simp [KeyMissing, IsDef.check, ValidVR]
  case hindep =>
    intro v w keyExists
    cases keyExists <;> simp [KeyMissing, IsDef.check]
  case hpres =>
    intro v keyExists
    cases keyExists <;> simp [KeyPresent, IsDef.check, ValidVR]

/-- C7: for every reachable `Results` value, the records of
`DetailedErrors()` are exactly (up to the unspecified map iteration order) the
failing records of `Fields` with their original paths, so their counts are
equal, and the receiver's `Valid` flag is false iff that count is nonzero. -/
theorem c7_detailedErrors_complete (ops : List (String × ValueResult)) :
    ((flattenFields ((applyRecords ops).DetailedErrors).Fields).Perm
        ((flattenFields (applyRecords ops).Fields).filter (fun pv => !pv.2.Valid)))
  ∧ ((flattenFields ((applyRecords ops).DetailedErrors).Fields).length
        = ((flattenFields (applyRecords ops).Fields).filter (fun pv => !pv.2.Valid)).length)
  ∧ ((applyRecords ops).Valid = false ↔
        ((flattenFields (applyRecords ops).Fields).filter (fun pv => !pv.2.Valid)).length ≠ 0) := by
  refine ⟨detailedErrors_flatten_perm _, (detailedErrors_flatten_perm _).length_eq, ?hiff⟩
  rw [applyRecords_valid_eq_allRecordsValid, allRecordsValid,
    List.all_eq_false, Ne, List.length_eq_zero, List.filter_eq_nil_iff]
  simp

/-- C8: `Errors()` returns exactly one error per failing record (valid
records contribute none), in iteration order with paths preserved, and the
rendered strings are `@path '<path>': <message>` for each failing record's
path and message. -/
theorem c8_errors_render (r : Results) :
    (Results.Errors r
        = ((flattenFields r.Fields).filter (fun pv => !pv.2.Valid)).map
            (fun pv => ValueResultError.mk pv.1 pv.2))
  ∧ ((Results.Errors r).map ValueResultError.Error
        = ((flattenFields r.Fields).filter (fun pv => !pv.2.Valid)).map
            (fun pv => "@path '" ++ pv.1 ++ "': " ++ pv.2.Message)) := by
  have h : Results.Errors r
      = ((flattenFields r.Fields).filter (fun pv => !pv.2.Valid)).map
          (fun pv => ValueResultError.mk pv.1 pv.2) := by
    rw [Results.Errors, errors_foldl_eq, List.nil_append]
  exact ⟨h, by rw [h, List.map_map]; rfl⟩

/-- C9: `EachResult(f)` visits, in iteration order, the longest prefix of
recorded results on which the visitor keeps returning `true`, plus the single
result (if any) on which it returns `false` — nothing after that at any path —
and when the visitor always returns `true` it is invoked exactly once per
recorded result. -/
theorem c9_eachResult_early_stop (r : Results) (f : String → ValueResult → Bool) :
    (Results.EachResultCalls r f
        = (flattenFields r.Fields).takeWhile (fun pv => f pv.1 pv.2)
          ++ ((flattenFields r.Fields).dropWhile (fun pv => f pv.1 pv.2)).take 1)
  ∧ ((∀ p vr, f p vr = true) → Results.EachResultCalls r f = flattenFields r.Fields) :=
  ⟨eachResultCalls_eq_takeWhile f _, fun hf => eachResultCalls_of_all_true f hf _⟩

/-- C9 witness: an always-true visitor walks a concrete two-record set in
full. -/
theorem c9_eachResult_early_stop_witness :
    Results.EachResultCalls
        (Results.mk [("a", [ValidVR]), ("b", [ValueResult.mk false "m"])] false)
        (fun _ _ => true)
      = flattenFields [("a", [ValidVR]), ("b", [ValueResult.mk false "m"])] :=
  (c9_eachResult_early_stop
      (Results.mk [("a", [ValidVR]), ("b", [ValueResult.mk false "m"])] false)
      (fun _ _ => true)).2 (fun _ _ => rfl)

/-- C10: the empty logical OR is never valid: `IsAny()` applied to any value
returns an invalid record (with the failure message listing the empty
candidate slice and the actual value). -/
theorem c10_isAny_empty_never_valid (v : GoValue) :
    (((IsAny []).check v true).Valid = false)
  ∧ ((IsAny []).check v true
      = ValueResult.mk false
          ("Value was none of []string\x7b\x7d, actual value was " ++ goFormatSharpV v)) :=
  ⟨rfl, rfl⟩

end Mapval
